import Mathlib

/-!
Shallow embedding of the `liner` line-editor core (`src/buffer.rs`,
`src/history.rs`, `src/editor.rs`, `src/keymap/mod.rs`, `src/keymap/vi.rs`)
together with theorems settling the specification claims about it.

Conventions of the embedding:
* Rust `Vec<char>` buffers become `List Char`.
* The undo/redo stacks (`Vec<Action>` pushed/popped at the end) become
  `List Action` with the most recent action at the head.
* `usize` arithmetic becomes `Nat` (with Rust's panicking out-of-range
  accesses modeled by the usual truncating `List.take`/`List.drop` splices;
  theorems that depend on offsets being in range carry explicit validity
  hypotheses), and the `i32` group-nesting counter in `undo`/`redo` becomes
  `Int`.
* Terminal I/O is outside the embedding; of `Editor::_display` only the
  cursor clamping (the part relevant to the claims) is retained, and the
  CRLF write in `handle_newline` is recorded as a boolean.
-/

namespace Liner

/-- A modification performed on a `Buffer` (mirrors `Action` in
`src/buffer.rs`): the offset is in code points and the text is the
inserted/removed characters. -/
inductive Action where
  | Insert (start : Nat) (text : List Char)
  | Remove (start : Nat) (text : List Char)
  | StartGroup
  | EndGroup
deriving DecidableEq, Repr

/-- Marker actions are the group delimiters. -/
def Action.isMarker : Action → Bool
  | .StartGroup => true
  | .EndGroup => true
  | _ => false

/-- `Buffer::insert_raw`: splice `text` into `data` at offset `start`
(the source inserts the characters one at a time, which for in-range
offsets is this splice). -/
def insertRaw (start : Nat) (text : List Char) (data : List Char) : List Char :=
  data.take start ++ text ++ data.drop start

/-- The characters drained by `Buffer::remove_raw(start, stop)`. -/
def removedRange (start stop : Nat) (data : List Char) : List Char :=
  (data.drop start).take (stop - start)

/-- The characters remaining after `Buffer::remove_raw(start, stop)`. -/
def removeRaw (start stop : Nat) (data : List Char) : List Char :=
  data.take start ++ data.drop stop

/-- `Action::do_on`, acting on the character data. -/
def Action.doOn : Action → List Char → List Char
  | .Insert start text, data => insertRaw start text data
  | .Remove start text, data => removeRaw start (start + text.length) data
  | .StartGroup, data => data
  | .EndGroup, data => data

/-- `Action::undo`, acting on the character data. -/
def Action.undoOn : Action → List Char → List Char
  | .Insert start text, data => removeRaw start (start + text.length) data
  | .Remove start text, data => insertRaw start text data
  | .StartGroup, data => data
  | .EndGroup, data => data

/-- `Buffer` from `src/buffer.rs`: character data plus the undo and redo
stacks (most recent action first). -/
structure Buffer where
  data : List Char
  actions : List Action
  undone_actions : List Action
deriving DecidableEq, Repr

/-- `Buffer::new`. -/
def Buffer.new : Buffer := ⟨[], [], []⟩

/-- `From<&str> for Buffer` (actions start empty). -/
def Buffer.fromList (s : List Char) : Buffer := ⟨s, [], []⟩

/-- `String::from(buf)` / `Display for Buffer`. -/
def Buffer.to_string (b : Buffer) : String := ⟨b.data⟩

/-- `Buffer::num_chars`. -/
def Buffer.num_chars (b : Buffer) : Nat := b.data.length

/-- `Buffer::is_empty`. -/
def Buffer.is_empty (b : Buffer) : Bool := b.data.isEmpty

/-- `Buffer::char_before`. -/
def Buffer.char_before (b : Buffer) (cursor : Nat) : Option Char :=
  if cursor = 0 then none else b.data.get? (cursor - 1)

/-- `Buffer::char_after`. -/
def Buffer.char_after (b : Buffer) (cursor : Nat) : Option Char :=
  b.data.get? cursor

/-- `Buffer::push_action`: push onto the undo stack and clear the redo
stack. -/
def Buffer.push_action (b : Buffer) (act : Action) : Buffer :=
  { b with actions := act :: b.actions, undone_actions := [] }

/-- `Buffer::insert`. -/
def Buffer.insert (b : Buffer) (start : Nat) (text : List Char) : Buffer :=
  let act := Action.Insert start text
  Buffer.push_action { b with data := act.doOn b.data } act

/-- `Buffer::remove`: returns the new buffer and the number of characters
removed. -/
def Buffer.remove (b : Buffer) (start stop : Nat) : Buffer × Nat :=
  let s := removedRange start stop b.data
  (Buffer.push_action { b with data := removeRaw start stop b.data }
      (Action.Remove start s),
    s.length)

/-- `Buffer::truncate`. -/
def Buffer.truncate (b : Buffer) (num : Nat) : Buffer :=
  (b.remove num b.data.length).1

/-- `Buffer::start_undo_group`. -/
def Buffer.start_undo_group (b : Buffer) : Buffer :=
  { b with actions := Action.StartGroup :: b.actions }

/-- `Buffer::end_undo_group`. -/
def Buffer.end_undo_group (b : Buffer) : Buffer :=
  { b with actions := Action.EndGroup :: b.actions }

/-- `Buffer::clear_actions`. -/
def Buffer.clear_actions (b : Buffer) : Buffer :=
  { b with actions := [], undone_actions := [] }

/-- The `while let Some(act) = self.actions.pop()` loop of `Buffer::undo`:
arguments are the data, the undo stack, the redo stack, `group_nest`
(`i32` in the source) and `group_count`; the result is the final data,
undo stack and redo stack. -/
def undoLoop : List Char → List Action → List Action → Int → Nat →
    List Char × List Action × List Action
  | data, [], undone, _, _ => (data, [], undone)
  | data, act :: rest, undone, group_nest, group_count =>
    let data := act.undoOn data
    let undone := act :: undone
    let group_nest := match act with
      | .EndGroup => group_nest + 1
      | .StartGroup => group_nest - 1
      | _ => group_nest
    let group_count := match act with
      | .EndGroup => 0
      | .StartGroup => group_count
      | _ => group_count + 1
    if group_nest = 0 ∧ group_count > 0 then (data, rest, undone)
    else undoLoop data rest undone group_nest group_count

/-- `Buffer::undo`: returns the new buffer and whether anything was
undone. -/
def Buffer.undo (b : Buffer) : Buffer × Bool :=
  let r := undoLoop b.data b.actions b.undone_actions 0 0
  (⟨r.1, r.2.1, r.2.2⟩, !b.actions.isEmpty)

/-- The loop of `Buffer::redo` (symmetric to `undoLoop`; pops the redo
stack, replays the action and pushes it back onto the undo stack). -/
def redoLoop : List Char → List Action → List Action → Int → Nat →
    List Char × List Action × List Action
  | data, acts, [], _, _ => (data, acts, [])
  | data, acts, act :: rest, group_nest, group_count =>
    let data := act.doOn data
    let acts := act :: acts
    let group_nest := match act with
      | .StartGroup => group_nest + 1
      | .EndGroup => group_nest - 1
      | _ => group_nest
    let group_count := match act with
      | .StartGroup => 0
      | .EndGroup => group_count
      | _ => group_count + 1
    if group_nest = 0 ∧ group_count > 0 then (data, acts, rest)
    else redoLoop data acts rest group_nest group_count

/-- `Buffer::redo`. -/
def Buffer.redo (b : Buffer) : Buffer × Bool :=
  let r := redoLoop b.data b.actions b.undone_actions 0 0
  (⟨r.1, r.2.1, r.2.2⟩, !b.undone_actions.isEmpty)

/-- The `while self.undo() {}` loop of `Buffer::revert`. Each `undo` on a
non-empty undo stack consumes at least one action, so `b.actions.length`
rounds of fuel always reach the empty stack. -/
def revertLoop : Nat → Buffer → Buffer
  | 0, b => b
  | fuel + 1, b => if b.actions.isEmpty then b else revertLoop fuel (b.undo).1

/-- `Buffer::revert`. -/
def Buffer.revert (b : Buffer) : Buffer × Bool :=
  if b.actions.length = 0 then (b, false)
  else (revertLoop b.actions.length b, true)

/-- `Buffer::starts_with` (the autosuggestion test): the zip/takeWhile
count of matching leading characters must equal the other length, guarded
by the other buffer being non-empty and the lengths differing. -/
def Buffer.starts_with (self other : Buffer) : Bool :=
  let other_len := other.data.length
  let self_len := self.data.length
  if other.data.length ≠ 0 ∧ self_len ≠ other_len then
    ((self.data.zip other.data).takeWhile fun p => p.1 == p.2).length == other_len
  else false

/-- `Buffer::insert_from_buffer`. -/
def Buffer.insert_from_buffer (b other : Buffer) : Buffer :=
  let start := b.data.length
  b.insert start (other.data.drop start)

/-- `History` from `src/history.rs`. The background worker is out of the
embedding; `pending_writes` records the commands enqueued on its channel
by `push`. -/
structure History where
  buffers : List Buffer
  file_name : Option String
  max_size : Nat
  append_duplicate_entries : Bool
  pending_writes : List (Buffer × String)
deriving DecidableEq, Repr

/-- `History::new` (`DEFAULT_MAX_SIZE = 1000`). -/
def History.new : History := ⟨[], none, 1000, false, []⟩

/-- `History::len`. -/
def History.len (h : History) : Nat := h.buffers.length

/-- The `while self.buffers.len() > self.max_size { pop_front }` loop of
`History::push`. -/
def evictFront : List Buffer → Nat → List Buffer
  | [], _ => []
  | x :: xs, m => if (x :: xs).length > m then evictFront xs m else x :: xs

/-- `History::push`: enqueue to the persistence channel when a file name
is set, then either drop the entry (duplicate of the back, with
`append_duplicate_entries` unset) or push it at the back and evict from
the front down to `max_size`. -/
def History.push (h : History) (new_item : Buffer) : History :=
  let h := match h.file_name with
    | some name => { h with pending_writes := h.pending_writes ++ [(new_item, name)] }
    | none => h
  if ¬ h.append_duplicate_entries ∧
      h.buffers.getLast?.map Buffer.to_string = some new_item.to_string then
    h
  else
    { h with buffers := evictFront (h.buffers ++ [new_item]) h.max_size }

/-- The `for iter in (0..pos).rev()` loop of `History::get_newest_match`:
`scanDown bufs nb (i+1)` tests index `i` and then recurses downwards. -/
def scanDown (bufs : List Buffer) (new_buff : Buffer) : Nat → Option Buffer
  | 0 => none
  | i + 1 =>
    match bufs.get? i with
    | some tested =>
      if tested.starts_with new_buff then some tested else scanDown bufs new_buff i
    | none => scanDown bufs new_buff i

/-- `History::get_newest_match`. -/
def History.get_newest_match (h : History) (curr_position : Option Nat)
    (new_buff : Buffer) : Option Buffer :=
  scanDown h.buffers new_buff (curr_position.getD h.buffers.length)

/-- The editor state from `src/editor.rs`. The prompt, output sink,
completion-hint latch and terminal-row counter only affect rendering and
are outside the embedding. -/
structure Editor where
  new_buf : Buffer
  history : History
  cur_history_loc : Option Nat
  cursor : Nat
  no_eol : Bool
  show_autosuggestions : Bool
deriving DecidableEq, Repr

/-- The `cur_buf!` macro: the history entry at `cur_history_loc`, or the
fresh buffer (the source indexes the deque directly and in-range; an
out-of-range location defaults to an empty buffer here). -/
def Editor.curBuf (ed : Editor) : Buffer :=
  match ed.cur_history_loc with
  | some i => (ed.history.buffers.get? i).getD Buffer.new
  | none => ed.new_buf

/-- The write side of the `cur_buf_mut!` macro. -/
def Editor.setCurBuf (ed : Editor) (b : Buffer) : Editor :=
  match ed.cur_history_loc with
  | some i =>
    { ed with history := { ed.history with buffers := ed.history.buffers.set i b } }
  | none => { ed with new_buf := b }

/-- The cursor-clamping fragment of `Editor::_display` (`editor.rs` lines
631-642): clamp the cursor to the buffer length, then with `no_eol` step a
cursor sitting at the end of a non-empty buffer one character left.
Everything else `_display` does is terminal rendering. -/
def Editor.display (ed : Editor) : Editor :=
  let n := ed.curBuf.num_chars
  let c := if n < ed.cursor then n else ed.cursor
  let c := if ed.no_eol ∧ 1 ≤ c ∧ c = n then c - 1 else c
  { ed with cursor := c }

/-- `Editor::move_cursor_left`. -/
def Editor.move_cursor_left (ed : Editor) (count : Nat) : Editor :=
  let count := if count > ed.cursor then ed.cursor else count
  Editor.display { ed with cursor := ed.cursor - count }

/-- `Editor::move_cursor_right`. -/
def Editor.move_cursor_right (ed : Editor) (count : Nat) : Editor :=
  let n := ed.curBuf.num_chars
  let count := if count > n - ed.cursor then n - ed.cursor else count
  Editor.display { ed with cursor := ed.cursor + count }

/-- `Editor::move_cursor_to`. -/
def Editor.move_cursor_to (ed : Editor) (pos : Nat) : Editor :=
  let n := ed.curBuf.num_chars
  Editor.display { ed with cursor := if pos > n then n else pos }

/-- `Editor::move_cursor_to_start_of_line`. -/
def Editor.move_cursor_to_start_of_line (ed : Editor) : Editor :=
  Editor.display { ed with cursor := 0 }

/-- `Editor::move_cursor_to_end_of_line`. -/
def Editor.move_cursor_to_end_of_line (ed : Editor) : Editor :=
  Editor.display { ed with cursor := ed.curBuf.num_chars }

/-- `Editor::move_up`. -/
def Editor.move_up (ed : Editor) : Editor :=
  match ed.cur_history_loc with
  | some i =>
    if i > 0 then
      Editor.move_cursor_to_end_of_line { ed with cur_history_loc := some (i - 1) }
    else ed.display
  | none =>
    if ed.history.len > 0 then
      Editor.move_cursor_to_end_of_line
        { ed with cur_history_loc := some (ed.history.len - 1) }
    else ed.display

/-- `Editor::move_down` (`i < len - 1` is `usize` arithmetic in the
source; the `Nat` truncation at `len = 0` matches the in-range states). -/
def Editor.move_down (ed : Editor) : Editor :=
  match ed.cur_history_loc with
  | some i =>
    if i < ed.history.len - 1 then
      Editor.move_cursor_to_end_of_line { ed with cur_history_loc := some (i + 1) }
    else
      Editor.move_cursor_to_end_of_line { ed with cur_history_loc := none }
  | none => ed.display

/-- `Editor::move_to_start_of_history`. -/
def Editor.move_to_start_of_history (ed : Editor) : Editor :=
  if ed.history.len > 0 then
    Editor.move_cursor_to_end_of_line { ed with cur_history_loc := some 0 }
  else
    Editor.display { ed with cur_history_loc := none }

/-- `Editor::move_to_end_of_history`. -/
def Editor.move_to_end_of_history (ed : Editor) : Editor :=
  if ed.cur_history_loc.isSome then
    Editor.move_cursor_to_end_of_line { ed with cur_history_loc := none }
  else ed.display

/-- `Editor::insert_chars_after_cursor`. -/
def Editor.insert_chars_after_cursor (ed : Editor) (cs : List Char) : Editor :=
  let ed2 := ed.setCurBuf (ed.curBuf.insert ed.cursor cs)
  Editor.display { ed2 with cursor := ed2.cursor + cs.length }

/-- `Editor::insert_after_cursor`. -/
def Editor.insert_after_cursor (ed : Editor) (c : Char) : Editor :=
  ed.insert_chars_after_cursor [c]

/-- `Editor::insert_str_after_cursor`. -/
def Editor.insert_str_after_cursor (ed : Editor) (s : String) : Editor :=
  ed.insert_chars_after_cursor s.toList

/-- `Editor::delete_before_cursor`. -/
def Editor.delete_before_cursor (ed : Editor) : Editor :=
  let ed2 :=
    if ed.cursor > 0 then
      { ed.setCurBuf (ed.curBuf.remove (ed.cursor - 1) ed.cursor).1 with
          cursor := ed.cursor - 1 }
    else ed
  ed2.display

/-- `Editor::delete_after_cursor`. -/
def Editor.delete_after_cursor (ed : Editor) : Editor :=
  let ed2 :=
    if ed.cursor < ed.curBuf.num_chars then
      ed.setCurBuf (ed.curBuf.remove ed.cursor (ed.cursor + 1)).1
    else ed
  ed2.display

/-- `Editor::delete_all_before_cursor`. -/
def Editor.delete_all_before_cursor (ed : Editor) : Editor :=
  Editor.display { ed.setCurBuf (ed.curBuf.remove 0 ed.cursor).1 with cursor := 0 }

/-- `Editor::delete_all_after_cursor`. -/
def Editor.delete_all_after_cursor (ed : Editor) : Editor :=
  (ed.setCurBuf (ed.curBuf.truncate ed.cursor)).display

/-- `Editor::delete_until`. -/
def Editor.delete_until (ed : Editor) (pos : Nat) : Editor :=
  let ed2 := ed.setCurBuf
    (ed.curBuf.remove (min ed.cursor pos) (max ed.cursor pos)).1
  Editor.display { ed2 with cursor := min ed.cursor pos }

/-- `Editor::delete_until_inclusive`. -/
def Editor.delete_until_inclusive (ed : Editor) (pos : Nat) : Editor :=
  let ed2 := ed.setCurBuf
    (ed.curBuf.remove (min ed.cursor pos) (max (ed.cursor + 1) (pos + 1))).1
  Editor.display { ed2 with cursor := min ed.cursor pos }

/-- `Editor::undo`. -/
def Editor.undo (ed : Editor) : Editor × Bool :=
  let r := ed.curBuf.undo
  let ed2 := ed.setCurBuf r.1
  if r.2 then (ed2.move_cursor_to_end_of_line, true) else (ed2.display, false)

/-- `Editor::redo`. -/
def Editor.redo (ed : Editor) : Editor × Bool :=
  let r := ed.curBuf.redo
  let ed2 := ed.setCurBuf r.1
  if r.2 then (ed2.move_cursor_to_end_of_line, true) else (ed2.display, false)

/-- `Editor::revert`. -/
def Editor.revert (ed : Editor) : Editor × Bool :=
  let r := ed.curBuf.revert
  let ed2 := ed.setCurBuf r.1
  if r.2 then (ed2.move_cursor_to_end_of_line, true) else (ed2.display, false)

/-- `Editor::handle_newline`: the new editor, the done flag, and whether
the `\r\n` pair was written. With a backslash before the cursor a literal
newline is inserted instead and nothing is emitted. -/
def Editor.handle_newline (ed : Editor) : Editor × Bool × Bool :=
  if ed.curBuf.char_before ed.cursor = some '\\' then
    (ed.insert_after_cursor '\n', false, false)
  else
    (Editor.display { ed with cursor := ed.curBuf.num_chars }, true, true)

/-- `Editor::current_autosuggestion`. -/
def Editor.current_autosuggestion (ed : Editor) : Option Buffer :=
  if ed.show_autosuggestions then
    ed.history.get_newest_match ed.cur_history_loc ed.curBuf
  else none

/-- `Editor::is_currently_showing_autosuggestion`. -/
def Editor.is_currently_showing_autosuggestion (ed : Editor) : Bool :=
  ed.current_autosuggestion.isSome

/-- `Editor::cursor_is_at_end_of_line`. -/
def Editor.cursor_is_at_end_of_line (ed : Editor) : Bool :=
  let n := ed.curBuf.num_chars
  if ed.no_eol then ed.cursor == n - 1 else ed.cursor == n

/-- `Editor::accept_autosuggestion`. -/
def Editor.accept_autosuggestion (ed : Editor) : Editor :=
  let ed2 :=
    if ed.show_autosuggestions then
      match ed.current_autosuggestion with
      | some x => ed.setCurBuf (ed.curBuf.insert_from_buffer x)
      | none => ed
    else ed
  ed2.move_cursor_to_end_of_line

/-- `Editor::new` with an empty initial buffer and a fresh context. -/
def Editor.initial : Editor :=
  { new_buf := Buffer.new
    history := History.new
    cur_history_loc := none
    cursor := 0
    no_eol := false
    show_autosuggestions := true }

/-- `termion::event::Key`, restricted to the variants the keymaps use. -/
inductive VKey where
  | char (c : Char)
  | ctrl (c : Char)
  | alt (c : Char)
  | left
  | right
  | up
  | down
  | home
  | kEnd
  | backspace
  | delete
  | esc
  | null
deriving DecidableEq, Repr

/-- The two error kinds `KeyMap::handle_key` can return itself
(`ErrorKind::Interrupted` for Ctrl-C, `ErrorKind::UnexpectedEof` for
Ctrl-D on an empty buffer). -/
inductive LineError where
  | interrupted
  | eof
deriving DecidableEq, Repr

/-- Result of one `KeyMap::handle_key` dispatch: the editor, the error (if
any), the done flag, and whether `handle_newline` wrote its CRLF. -/
structure DispatchOut where
  ed : Editor
  err : Option LineError
  done : Bool
  crlf : Bool
deriving Repr

/-- `KeyMap::handle_key` from `src/keymap/mod.rs`. `core` stands for the
active keymap's `handle_key_core` and `complete` for `Editor::complete`;
in the source both return `io::Result` whose only failures are terminal
I/O, so in the embedding they are total and cannot produce the two
dispatcher errors. -/
def handle_key (core : Editor → VKey → Editor) (complete : Editor → Editor)
    (ed : Editor) (key : VKey) : DispatchOut :=
  let is_empty := ed.curBuf.is_empty
  let key := if key = VKey.ctrl 'h' then VKey.backspace else key
  if key = VKey.ctrl 'c' then
    let r := ed.handle_newline
    ⟨r.1, some LineError.interrupted, false, r.2.2⟩
  else if key = VKey.ctrl 'd' ∧ is_empty = true then
    let r := ed.handle_newline
    ⟨r.1, some LineError.eof, false, r.2.2⟩
  else if key = VKey.char '\t' then
    ⟨complete ed, none, false, false⟩
  else if key = VKey.char '\n' then
    let r := ed.handle_newline
    ⟨r.1, none, r.2.1, r.2.2⟩
  else if key = VKey.ctrl 'f' ∧ ed.is_currently_showing_autosuggestion = true then
    ⟨ed.accept_autosuggestion, none, false, false⟩
  else if key = VKey.right ∧ ed.is_currently_showing_autosuggestion = true ∧
      ed.cursor_is_at_end_of_line = true then
    ⟨ed.accept_autosuggestion, none, false, false⟩
  else
    ⟨core ed key, none, false, false⟩

/-- `CharMovement` from `src/keymap/vi.rs`. -/
inductive CharMovement where
  | RightUntil
  | RightAt
  | LeftUntil
  | LeftAt
  | Repeat
  | ReverseRepeat
deriving DecidableEq, Repr

/-- `MoveType` from `src/keymap/vi.rs`. -/
inductive MoveType where
  | Inclusive
  | Exclusive
deriving DecidableEq, Repr

/-- `Mode` from `src/keymap/vi.rs`. -/
inductive Mode where
  | Insert
  | Normal
  | Replace
  | Delete (start : Nat)
  | MoveToChar (m : CharMovement)
  | G
  | Tilde
deriving DecidableEq, Repr

/-- The `Vi` keymap state (`src/keymap/vi.rs`): the editor, the mode
stack (top first), the command/insert replay state and the counts
(`u32` in the source, kept in range by the saturating operations). -/
structure ViS where
  ed : Editor
  mode_stack : List Mode
  current_command : List VKey
  last_command : List VKey
  current_insert : Option VKey
  last_insert : Option VKey
  count : Nat
  secondary_count : Nat
  last_count : Nat
  movement_reset : Bool
  last_char_movement : Option (Char × CharMovement)
deriving DecidableEq, Repr

/-- `u32::MAX`. -/
def U32MAX : Nat := 4294967295

/-- `u32::saturating_mul` on in-range values. -/
def satMul (a b : Nat) : Nat := min (a * b) U32MAX

/-- `u32::saturating_add` on in-range values. -/
def satAdd (a b : Nat) : Nat := min (a + b) U32MAX

/-- `ModeStack::mode`: an empty stack means normal mode. -/
def ViS.mode (s : ViS) : Mode := s.mode_stack.headD Mode.Normal

/-- Apply a buffer transformation to the current buffer
(`self.ed.current_buffer_mut()`). -/
def ViS.withCurBuf (s : ViS) (f : Buffer → Buffer) : ViS :=
  { s with ed := s.ed.setCurBuf (f s.ed.curBuf) }

/-- `Vi::new`: starts in insert mode with an open undo group and
`last_insert = Some(Key::Char('i'))`. -/
def Vi.new (ed : Editor) : ViS :=
  { ed := ed.setCurBuf ed.curBuf.start_undo_group
    mode_stack := [Mode.Insert]
    current_command := []
    last_command := []
    current_insert := none
    last_insert := some (VKey.char 'i')
    count := 0
    secondary_count := 0
    last_count := 0
    movement_reset := false
    last_char_movement := none }

/-- `Vi::set_mode_preserve_last`. -/
def ViS.set_mode_preserve_last (s : ViS) (m : Mode) : ViS :=
  let s := { s with
    ed := { s.ed with no_eol := m == Mode.Normal }
    movement_reset := m != Mode.Insert
    mode_stack := m :: s.mode_stack }
  if m = Mode.Insert ∨ m = Mode.Tilde then s.withCurBuf Buffer.start_undo_group else s

/-- `Vi::set_mode`. -/
def ViS.set_mode (s : ViS) (m : Mode) : ViS :=
  let s := s.set_mode_preserve_last m
  if m = Mode.Insert then { s with last_count := 0, last_command := [] } else s

/-- `Vi::pop_mode`. -/
def ViS.pop_mode (s : ViS) : ViS :=
  let last_mode := s.mode_stack.headD Mode.Normal
  let s := { s with mode_stack := s.mode_stack.tail }
  let s := { s with
    ed := { s.ed with no_eol := s.mode == Mode.Normal }
    movement_reset := s.mode != Mode.Insert }
  let s :=
    if last_mode = Mode.Insert ∨ last_mode = Mode.Tilde then
      s.withCurBuf Buffer.end_undo_group
    else s
  if last_mode = Mode.Tilde then { s with ed := s.ed.display } else s

/-- `Vi::pop_mode_after_movement`. -/
def ViS.pop_mode_after_movement (s : ViS) (move_type : MoveType) : ViS :=
  let original_mode := s.mode_stack.headD Mode.Normal
  let s := { s with mode_stack := s.mode_stack.tail }
  let r : Mode × ViS :=
    match s.mode with
    | Mode.Delete k => (Mode.Delete k, { s with mode_stack := s.mode_stack.tail })
    | _ => (original_mode, s)
  let last_mode := r.1
  let s := r.2
  let s := { s with
    ed := { s.ed with no_eol := s.mode == Mode.Normal }
    movement_reset := s.mode != Mode.Insert }
  let s :=
    match last_mode with
    | Mode.Delete start_pos =>
      let s := { s with ed :=
        match move_type with
        | MoveType.Exclusive => s.ed.delete_until start_pos
        | MoveType.Inclusive => s.ed.delete_until_inclusive start_pos }
      { s with
        last_command := s.current_command
        current_command := s.last_command
        last_insert := s.current_insert
        last_count := s.count
        count := 0
        secondary_count := 0 }
    | _ => s
  if original_mode = Mode.Normal then { s with count := 0 } else s

/-- `Vi::normal_mode_abort`. -/
def ViS.normal_mode_abort (s : ViS) : ViS :=
  { s with mode_stack := [], ed := { s.ed with no_eol := true }, count := 0 }

/-- `Vi::move_count`. -/
def ViS.move_count (s : ViS) : Nat := if s.count = 0 then 1 else s.count

/-- `Vi::move_count_left`. -/
def ViS.move_count_left (s : ViS) : Nat := min s.ed.cursor s.move_count

/-- `Vi::move_count_right`. -/
def ViS.move_count_right (s : ViS) : Nat :=
  min (s.ed.curBuf.num_chars - s.ed.cursor) s.move_count

/-- `Vi::handle_key_common`. -/
def ViS.handle_key_common (s : ViS) (key : VKey) : ViS :=
  match key with
  | VKey.ctrl c =>
    if c = 'l' then { s with ed := s.ed.display } else s
  | VKey.left => { s with ed := s.ed.move_cursor_left 1 }
  | VKey.right => { s with ed := s.ed.move_cursor_right 1 }
  | VKey.up => { s with ed := s.ed.move_up }
  | VKey.down => { s with ed := s.ed.move_down }
  | VKey.home => { s with ed := s.ed.move_cursor_to_start_of_line }
  | VKey.kEnd => { s with ed := s.ed.move_cursor_to_end_of_line }
  | VKey.backspace => { s with ed := s.ed.delete_before_cursor }
  | VKey.delete => { s with ed := s.ed.delete_after_cursor }
  | VKey.null => s
  | _ => s

/-- The `for _ in 1..count` replay loop inside the insert-mode `Esc`
handler: each round takes the recorded command out of `last_command`
(leaving it empty) and feeds the keys back through `handle`. -/
def replayN (handle : ViS → VKey → ViS) : Nat → ViS → ViS
  | 0, s => s
  | n + 1, s =>
    let keys := s.last_command
    let s := { s with last_command := [] }
    let s := keys.foldl handle s
    replayN handle n s

/-- The `u` / `Ctrl-R` loops: undo or redo up to `count` times, stopping
early when nothing was left to undo or redo. -/
def viUndoN : Nat → ViS → ViS
  | 0, s => s
  | n + 1, s =>
    let r := s.ed.undo
    let s := { s with ed := r.1 }
    if r.2 then viUndoN n s else s

/-- See `viUndoN`. -/
def viRedoN : Nat → ViS → ViS
  | 0, s => s
  | n + 1, s =>
    let r := s.ed.redo
    let s := { s with ed := r.1 }
    if r.2 then viRedoN n s else s

/-- `Vi::repeat` (the `.` command): replay `last_insert`, then the
recorded keys, then `Esc`, restoring `last_command` at the end. -/
def viRepeat (handle : ViS → VKey → ViS) (s : ViS) : ViS :=
  let s := { s with last_count := s.count }
  let keys := s.last_command
  let s := { s with last_command := [] }
  let s :=
    match s.last_insert with
    | some k => handle s k
    | none => s
  let s := keys.foldl handle s
  let s := if s.last_insert.isSome then handle s VKey.esc else s
  { s with last_command := keys }

/-- `Vi::handle_key_insert`. `handle` is the recursive
`handle_key_core`. -/
def viInsert (handle : ViS → VKey → ViS) (s : ViS) (key : VKey) : ViS :=
  match key with
  | VKey.esc =>
    let s :=
      if s.count > 0 then
        let s := { s with last_count := s.count }
        let s := replayN handle (s.count - 1) s
        { s with count := 0 }
      else s
    let s := { s with ed := s.ed.move_cursor_left 1 }
    s.pop_mode
  | VKey.char c =>
    let s :=
      if s.movement_reset then
        let s := (s.withCurBuf Buffer.end_undo_group).withCurBuf Buffer.start_undo_group
        { s with
            last_command := []
            movement_reset := false
            last_insert := some (VKey.char 'i') }
      else s
    let s := { s with last_command := s.last_command ++ [VKey.char c] }
    { s with ed := s.ed.insert_after_cursor c }
  | VKey.backspace =>
    let s :=
      if s.movement_reset then
        let s := (s.withCurBuf Buffer.end_undo_group).withCurBuf Buffer.start_undo_group
        { s with
            last_command := []
            movement_reset := false
            last_insert := some (VKey.char 'i') }
      else s
    let s := { s with last_command := s.last_command ++ [VKey.backspace] }
    s.handle_key_common VKey.backspace
  | VKey.delete =>
    let s :=
      if s.movement_reset then
        let s := (s.withCurBuf Buffer.end_undo_group).withCurBuf Buffer.start_undo_group
        { s with
            last_command := []
            movement_reset := false
            last_insert := some (VKey.char 'i') }
      else s
    let s := { s with last_command := s.last_command ++ [VKey.delete] }
    s.handle_key_common VKey.delete
  | VKey.left =>
    let s := { s with count := 0, movement_reset := true }
    s.handle_key_common VKey.left
  | VKey.right =>
    let s := { s with count := 0, movement_reset := true }
    s.handle_key_common VKey.right
  | VKey.home =>
    let s := { s with count := 0, movement_reset := true }
    s.handle_key_common VKey.home
  | VKey.kEnd =>
    let s := { s with count := 0, movement_reset := true }
    s.handle_key_common VKey.kEnd
  | VKey.up =>
    let s := { s with count := 0, movement_reset := true }
    let s := s.withCurBuf Buffer.end_undo_group
    let s := { s with ed := s.ed.move_up }
    s.withCurBuf Buffer.start_undo_group
  | VKey.down =>
    let s := { s with count := 0, movement_reset := true }
    let s := s.withCurBuf Buffer.end_undo_group
    let s := { s with ed := s.ed.move_down }
    s.withCurBuf Buffer.start_undo_group
  | k => s.handle_key_common k

/-- `Vi::handle_key_normal`, covering the mode-entering commands, `.`,
the simple motions/edits and the count digits. The operator (`d`/`c`),
replace, char-find, `g` and `~` sub-machines switch into modes that no
claim exercises; their keys fall through to `handle_key_common` exactly
as the source's final wildcard arm does for unbound keys. -/
def viNormal (handle : ViS → VKey → ViS) (s : ViS) (key : VKey) : ViS :=
  match key with
  | VKey.esc => { s with count := 0 }
  | VKey.char c =>
    if c = 'i' then
      let s := { s with last_insert := some (VKey.char c) }
      s.set_mode Mode.Insert
    else if c = 'a' then
      let s := { s with last_insert := some (VKey.char c) }
      let s := s.set_mode Mode.Insert
      { s with ed := s.ed.move_cursor_right 1 }
    else if c = 'A' then
      let s := { s with last_insert := some (VKey.char c) }
      let s := s.set_mode Mode.Insert
      { s with ed := s.ed.move_cursor_to_end_of_line }
    else if c = 'I' then
      let s := { s with last_insert := some (VKey.char c) }
      let s := s.set_mode Mode.Insert
      { s with ed := s.ed.move_cursor_to_start_of_line }
    else if c = 's' then
      let s := { s with last_insert := some (VKey.char c) }
      let s := s.set_mode Mode.Insert
      let pos := s.ed.cursor + s.move_count_right
      let s := { s with ed := s.ed.delete_until pos }
      { s with last_count := s.count, count := 0 }
    else if c = 'D' then
      let s := { s with
          last_insert := none
          last_command := [VKey.char c]
          count := 0
          last_count := 0 }
      { s with ed := s.ed.delete_all_after_cursor }
    else if c = 'C' then
      let s := { s with
          last_insert := none
          last_command := [VKey.char c]
          count := 0
          last_count := 0 }
      let s := s.set_mode_preserve_last Mode.Insert
      { s with ed := s.ed.delete_all_after_cursor }
    else if c = '.' then
      let s := { s with count :=
        match s.count, s.last_count with
        | 0, 0 => 1
        | 0, n + 1 => n + 1
        | n + 1, _ => n + 1 }
      viRepeat handle s
    else if c = 'h' then
      let n := s.move_count_left
      let s := { s with ed := s.ed.move_cursor_left n }
      s.pop_mode_after_movement MoveType.Exclusive
    else if c = 'l' ∨ c = ' ' then
      let n := s.move_count_right
      let s := { s with ed := s.ed.move_cursor_right n }
      s.pop_mode_after_movement MoveType.Exclusive
    else if c = 'k' then
      let s := { s with ed := s.ed.move_up }
      s.pop_mode_after_movement MoveType.Exclusive
    else if c = 'j' then
      let s := { s with ed := s.ed.move_down }
      s.pop_mode_after_movement MoveType.Exclusive
    else if c = '0' ∧ s.count = 0 then
      let s := { s with ed := s.ed.move_cursor_to_start_of_line }
      s.pop_mode_after_movement MoveType.Exclusive
    else if '0' ≤ c ∧ c ≤ '9' then
      { s with count := satAdd (satMul s.count 10) (c.toNat - 48) }
    else if c = '$' then
      let s := { s with ed := s.ed.move_cursor_to_end_of_line }
      s.pop_mode_after_movement MoveType.Exclusive
    else if c = 'x' then
      let s := { s with
          last_insert := none
          last_command := [VKey.char c]
          last_count := s.count }
      let pos := s.ed.cursor + s.move_count_right
      let s := { s with ed := s.ed.delete_until pos }
      { s with count := 0 }
    else if c = 'u' then
      let n := s.move_count
      let s := { s with count := 0 }
      viUndoN n s
    else s.handle_key_common (VKey.char c)
  | VKey.ctrl c =>
    if c = 'r' then
      let n := s.move_count
      let s := { s with count := 0 }
      viRedoN n s
    else s.handle_key_common (VKey.ctrl c)
  | VKey.left =>
    let n := s.move_count_left
    let s := { s with ed := s.ed.move_cursor_left n }
    s.pop_mode_after_movement MoveType.Exclusive
  | VKey.backspace =>
    let n := s.move_count_left
    let s := { s with ed := s.ed.move_cursor_left n }
    s.pop_mode_after_movement MoveType.Exclusive
  | VKey.right =>
    let n := s.move_count_right
    let s := { s with ed := s.ed.move_cursor_right n }
    s.pop_mode_after_movement MoveType.Exclusive
  | VKey.up =>
    let s := { s with ed := s.ed.move_up }
    s.pop_mode_after_movement MoveType.Exclusive
  | VKey.down =>
    let s := { s with ed := s.ed.move_down }
    s.pop_mode_after_movement MoveType.Exclusive
  | VKey.delete =>
    let s := { s with
        last_insert := none
        last_command := [VKey.delete]
        last_count := s.count }
    let pos := s.ed.cursor + s.move_count_right
    let s := { s with ed := s.ed.delete_until pos }
    { s with count := 0 }
  | k => s.handle_key_common k

/-- `Vi::handle_key_core`, fuel-indexed to bound the recursion through
`repeat` and the insert-mode `Esc` replay (the fuel only shrinks on
nested re-entries, so any fuel larger than the replay nesting depth gives
the source semantics). Modes other than insert/normal are sub-machines no
claim exercises and leave the state unchanged here. -/
def viKey : Nat → ViS → VKey → ViS
  | 0, s, _ => s
  | fuel + 1, s, key =>
    match s.mode with
    | Mode.Insert => viInsert (fun s2 k2 => viKey fuel s2 k2) s key
    | Mode.Normal => viNormal (fun s2 k2 => viKey fuel s2 k2) s key
    | _ => s

/-- Feed a key sequence through the Vi keymap. -/
def viRun (fuel : Nat) (s : ViS) (keys : List VKey) : ViS :=
  keys.foldl (fun s2 k2 => viKey fuel s2 k2) s

/-- The key sequence of the Vi repeat scenario: `i f Esc 3 .`. -/
def repeatScenarioKeys : List VKey :=
  [VKey.char 'i', VKey.char 'f', VKey.esc, VKey.char '3', VKey.char '.']

/-- Running the repeat scenario from a fresh editor. -/
def repeatScenario : ViS := viRun 20 (Vi.new Editor.initial) repeatScenarioKeys

/-! ## Mutating operation sequences (claim C1) -/

/-- The three public `Buffer` mutators (no group markers). -/
inductive MutOp where
  | insert (start : Nat) (text : List Char)
  | remove (start stop : Nat)
  | truncate (num : Nat)
deriving DecidableEq, Repr

/-- Apply one mutator. -/
def applyMut (b : Buffer) : MutOp → Buffer
  | .insert start text => b.insert start text
  | .remove start stop => (b.remove start stop).1
  | .truncate num => b.truncate num

/-- The in-range side conditions under which the Rust mutators do not
panic (`Vec::insert` / `Vec::drain` index checks). -/
def validMut (b : Buffer) : MutOp → Bool
  | .insert start _ => decide (start ≤ b.data.length)
  | .remove start stop => decide (start ≤ stop ∧ stop ≤ b.data.length)
  | .truncate num => decide (num ≤ b.data.length)

/-- Validity of a whole sequence of mutators, each in range for the
buffer it is applied to. -/
def validSeq : Buffer → List MutOp → Bool
  | _, [] => true
  | b, op :: ops => validMut b op && validSeq (applyMut b op) ops

/-- `n` successive calls to `Buffer::undo`; the boolean is the
conjunction of all the returned flags. -/
def undoN : Buffer → Nat → Buffer × Bool
  | b, 0 => (b, true)
  | b, n + 1 =>
    let r := b.undo
    let r2 := undoN r.1 n
    (r2.1, r.2 && r2.2)

/-- The in-memory dedup condition of `History::push`. -/
def History.dedups (h : History) (new_item : Buffer) : Prop :=
  ¬ h.append_duplicate_entries ∧
    h.buffers.getLast?.map Buffer.to_string = some new_item.to_string

instance (h : History) (b : Buffer) : Decidable (h.dedups b) := by
  unfold History.dedups
  infer_instance

/-- An editor whose buffer ends in a backslash right before the cursor. -/
def backslashEditor : Editor :=
  { new_buf := Buffer.fromList ['\\']
    history := History.new
    cur_history_loc := none
    cursor := 1
    no_eol := false
    show_autosuggestions := true }

/-- The public editor operations of the claim: cursor moves, inserts,
deletes, history navigation, undo/redo/revert, newline handling. -/
inductive EditorOp where
  | moveLeft (n : Nat)
  | moveRight (n : Nat)
  | moveTo (p : Nat)
  | moveToStart
  | moveToEnd
  | moveUp
  | moveDown
  | moveToStartOfHistory
  | moveToEndOfHistory
  | insertChars (cs : List Char)
  | insertChar (c : Char)
  | insertStr (s : String)
  | deleteBefore
  | deleteAfter
  | deleteAllBefore
  | deleteAllAfter
  | deleteUntil (p : Nat)
  | deleteUntilInclusive (p : Nat)
  | undo
  | redo
  | revert
  | handleNewline
  | acceptAutosuggestion
deriving DecidableEq, Repr

/-- Dispatch an `EditorOp` to the corresponding editor method. -/
def applyEditorOp (ed : Editor) : EditorOp → Editor
  | .moveLeft n => ed.move_cursor_left n
  | .moveRight n => ed.move_cursor_right n
  | .moveTo p => ed.move_cursor_to p
  | .moveToStart => ed.move_cursor_to_start_of_line
  | .moveToEnd => ed.move_cursor_to_end_of_line
  | .moveUp => ed.move_up
  | .moveDown => ed.move_down
  | .moveToStartOfHistory => ed.move_to_start_of_history
  | .moveToEndOfHistory => ed.move_to_end_of_history
  | .insertChars cs => ed.insert_chars_after_cursor cs
  | .insertChar c => ed.insert_after_cursor c
  | .insertStr s => ed.insert_str_after_cursor s
  | .deleteBefore => ed.delete_before_cursor
  | .deleteAfter => ed.delete_after_cursor
  | .deleteAllBefore => ed.delete_all_before_cursor
  | .deleteAllAfter => ed.delete_all_after_cursor
  | .deleteUntil p => ed.delete_until p
  | .deleteUntilInclusive p => ed.delete_until_inclusive p
  | .undo => (ed.undo).1
  | .redo => (ed.redo).1
  | .revert => (ed.revert).1
  | .handleNewline => (ed.handle_newline).1
  | .acceptAutosuggestion => ed.accept_autosuggestion

/-- The cursor invariant of the claim. -/
def cursorBounds (ed : Editor) : Prop :=
  0 ≤ ed.cursor ∧ ed.cursor ≤ ed.curBuf.num_chars ∧
    (ed.no_eol = true → ed.cursor ≤ max 0 (ed.curBuf.num_chars - 1))

theorem removeRaw_insertRaw (start : Nat) (text d : List Char)
    (h : start ≤ d.length) :
    removeRaw start (start + text.length) (insertRaw start text d) = d := by
  have hlen : (d.take start).length = start := by
    simp [List.length_take]
    omega
  unfold insertRaw removeRaw
  have h1 : (d.take start ++ text ++ d.drop start).take start = d.take start := by
    rw [List.append_assoc]
    exact List.take_left' hlen
  have hlen2 : (d.take start ++ text).length = start + text.length := by
    simp [hlen]
  have h2 : (d.take start ++ text ++ d.drop start).drop (start + text.length)
      = d.drop start := List.drop_left' hlen2
  rw [h1, h2, List.take_append_drop]

theorem insertRaw_removeRaw (start stop : Nat) (d : List Char)
    (h1 : start ≤ stop) (h2 : stop ≤ d.length) :
    insertRaw start (removedRange start stop d) (removeRaw start stop d) = d := by
  have hlen : (d.take start).length = start := by
    simp [List.length_take]
    omega
  unfold insertRaw removeRaw removedRange
  have ht : (d.take start ++ d.drop stop).take start = d.take start :=
    List.take_left' hlen
  have hd : (d.take start ++ d.drop stop).drop start = d.drop stop :=
    List.drop_left' hlen
  rw [ht, hd]
  have hta : d.take start ++ (d.drop start).take (stop - start) = d.take stop := by
    rw [← List.take_add]
    congr 1
    omega
  rw [hta, List.take_append_drop]

theorem undo_cons_nonmarker (a : Action) (h : a.isMarker = false)
    (d : List Char) (rest u : List Action) :
    Buffer.undo ⟨d, a :: rest, u⟩ = (⟨a.undoOn d, rest, a :: u⟩, true) := by
  cases a <;> simp_all [Buffer.undo, undoLoop, Action.isMarker]

theorem undoN_succ_last (b : Buffer) (n : Nat) :
    undoN b (n + 1) =
      ((undoN b n).1.undo.1, (undoN b n).2 && (undoN b n).1.undo.2) := by
  induction n generalizing b with
  | zero => simp [undoN]
  | succ n ih =>
    have h1 : undoN b (n + 1 + 1) =
        ((undoN b.undo.1 (n + 1)).1, b.undo.2 && (undoN b.undo.1 (n + 1)).2) := rfl
    have h2 : undoN b (n + 1) =
        ((undoN b.undo.1 n).1, b.undo.2 && (undoN b.undo.1 n).2) := rfl
    rw [h1, ih b.undo.1, h2]
    simp [Bool.and_assoc]

theorem undo_roundtrip_aux (ops : List MutOp) :
    ∀ (d : List Char) (a u : List Action),
      validSeq ⟨d, a, u⟩ ops = true →
      ∃ u2, undoN (List.foldl applyMut ⟨d, a, u⟩ ops) ops.length = (⟨d, a, u2⟩, true) := by
  induction ops with
  | nil =>
    intro d a u _
    exact ⟨u, rfl⟩
  | cons op ops ih =>
    intro d a u hv
    rw [validSeq, Bool.and_eq_true] at hv
    obtain ⟨h1, h2⟩ := hv
    cases op with
    | insert start text =>
      simp only [validMut, decide_eq_true_eq] at h1
      have hb : applyMut ⟨d, a, u⟩ (MutOp.insert start text) =
          ⟨insertRaw start text d, Action.Insert start text :: a, []⟩ := rfl
      rw [hb] at h2
      obtain ⟨u3, hu⟩ := ih (insertRaw start text d) (Action.Insert start text :: a) [] h2
      refine ⟨Action.Insert start text :: u3, ?_⟩
      rw [List.foldl_cons, hb, List.length_cons, undoN_succ_last, hu]
      simp only
      rw [undo_cons_nonmarker (Action.Insert start text) rfl]
      simp [Action.undoOn, removeRaw_insertRaw start text d h1]
    | remove start stop =>
      simp only [validMut, decide_eq_true_eq] at h1
      have hb : applyMut ⟨d, a, u⟩ (MutOp.remove start stop) =
          ⟨removeRaw start stop d, Action.Remove start (removedRange start stop d) :: a, []⟩ := rfl
      rw [hb] at h2
      obtain ⟨u3, hu⟩ := ih (removeRaw start stop d)
        (Action.Remove start (removedRange start stop d) :: a) [] h2
      refine ⟨Action.Remove start (removedRange start stop d) :: u3, ?_⟩
      rw [List.foldl_cons, hb, List.length_cons, undoN_succ_last, hu]
      simp only
      rw [undo_cons_nonmarker (Action.Remove start (removedRange start stop d)) rfl]
      simp [Action.undoOn, insertRaw_removeRaw start stop d h1.1 h1.2]
    | truncate num =>
      simp only [validMut, decide_eq_true_eq] at h1
      have hb : applyMut ⟨d, a, u⟩ (MutOp.truncate num) =
          ⟨removeRaw num d.length d, Action.Remove num (removedRange num d.length d) :: a, []⟩ := rfl
      rw [hb] at h2
      obtain ⟨u3, hu⟩ := ih (removeRaw num d.length d)
        (Action.Remove num (removedRange num d.length d) :: a) [] h2
      refine ⟨Action.Remove num (removedRange num d.length d) :: u3, ?_⟩
      rw [List.foldl_cons, hb, List.length_cons, undoN_succ_last, hu]
      simp only
      rw [undo_cons_nonmarker (Action.Remove num (removedRange num d.length d)) rfl]
      simp [Action.undoOn, insertRaw_removeRaw num d.length d h1 le_rfl]

/-- C1. Undo round-trip: for every buffer and every sequence of in-range
mutating operations (insert, remove, truncate — no group markers),
undoing as many times as there were operations restores the buffer's
text, and every one of those undos reports that it undid something. -/
theorem C1_undo_roundtrip (b : Buffer) (ops : List MutOp)
    (h : validSeq b ops = true) :
    (undoN (List.foldl applyMut b ops) ops.length).1.data = b.data ∧
    (undoN (List.foldl applyMut b ops) ops.length).2 = true := by
  obtain ⟨d, a, u⟩ := b
  obtain ⟨u2, hu⟩ := undo_roundtrip_aux ops d a u h
  rw [hu]
  exact ⟨rfl, rfl⟩

/-- Witness for C1 at a concrete buffer and operation sequence. -/
theorem C1_undo_roundtrip_witness :
    validSeq (Buffer.fromList ['x']) [MutOp.insert 1 ['a', 'b'], MutOp.remove 0 2, MutOp.truncate 0] = true ∧
    ((undoN (List.foldl applyMut (Buffer.fromList ['x'])
        [MutOp.insert 1 ['a', 'b'], MutOp.remove 0 2, MutOp.truncate 0]) 3).1.data
      = (Buffer.fromList ['x']).data ∧
     (undoN (List.foldl applyMut (Buffer.fromList ['x'])
        [MutOp.insert 1 ['a', 'b'], MutOp.remove 0 2, MutOp.truncate 0]) 3).2 = true) :=
  ⟨by decide, C1_undo_roundtrip _ _ (by decide)⟩

/-! ## Redo-stack invariant (claim C7) -/

theorem undoLoop_undone_le (acts : List Action) :
    ∀ (d : List Char) (u : List Action) (nest : Int) (cnt : Nat),
      u.length ≤ (undoLoop d acts u nest cnt).2.2.length := by
  induction acts with
  | nil => intro d u nest cnt; simp [undoLoop]
  | cons a rest ih =>
    intro d u nest cnt
    cases a <;>
      · simp only [undoLoop]
        split
        · simp
        · exact le_trans (by simp) (ih _ _ _ _)

theorem undoLoop_undone_grows (a : Action) (rest : List Action)
    (d : List Char) (u : List Action) (nest : Int) (cnt : Nat) :
    u.length < (undoLoop d (a :: rest) u nest cnt).2.2.length := by
  cases a <;>
    · simp only [undoLoop]
      split
      · simp
      · exact lt_of_lt_of_le (by simp)
          (undoLoop_undone_le rest _ _ _ _)

/-- C7. Redo-stack invariant: the public mutators `insert`, `remove` and
`truncate` leave the redo stack empty; `start_undo_group` and
`end_undo_group` leave it untouched; and `undo` itself (on a non-empty
undo stack) strictly grows it — it is the only operation that pushes
entries onto it. -/
theorem C7_redo_stack (b : Buffer) (start stop num : Nat) (text : List Char)
    (h : b.actions ≠ []) :
    (b.insert start text).undone_actions = [] ∧
    ((b.remove start stop).1).undone_actions = [] ∧
    (b.truncate num).undone_actions = [] ∧
    b.start_undo_group.undone_actions = b.undone_actions ∧
    b.end_undo_group.undone_actions = b.undone_actions ∧
    b.undone_actions.length < ((b.undo).1.undone_actions).length := by
  refine ⟨rfl, rfl, rfl, rfl, rfl, ?_⟩
  obtain ⟨d, acts, u⟩ := b
  cases acts with
  | nil => simp at h
  | cons a rest => exact undoLoop_undone_grows a rest d u 0 0

/-- Witness for C7 at a concrete buffer. -/
theorem C7_redo_stack_witness :
    ((Buffer.mk ['a'] [Action.Insert 0 ['a']] []).insert 1 ['b']).undone_actions = [] ∧
    (((Buffer.mk ['a'] [Action.Insert 0 ['a']] []).remove 0 1).1).undone_actions = [] ∧
    ((Buffer.mk ['a'] [Action.Insert 0 ['a']] []).truncate 0).undone_actions = [] ∧
    (Buffer.mk ['a'] [Action.Insert 0 ['a']] []).start_undo_group.undone_actions
      = (Buffer.mk ['a'] [Action.Insert 0 ['a']] []).undone_actions ∧
    (Buffer.mk ['a'] [Action.Insert 0 ['a']] []).end_undo_group.undone_actions
      = (Buffer.mk ['a'] [Action.Insert 0 ['a']] []).undone_actions ∧
    (Buffer.mk ['a'] [Action.Insert 0 ['a']] []).undone_actions.length <
      (((Buffer.mk ['a'] [Action.Insert 0 ['a']] []).undo).1.undone_actions).length :=
  C7_redo_stack (Buffer.mk ['a'] [Action.Insert 0 ['a']] []) 0 1 0 ['b'] (by decide)

/-! ## Prefix test (claim C3) -/

theorem zip_takeWhile_length_eq (l2 : List Char) :
    ∀ l1 : List Char,
      (((l1.zip l2).takeWhile fun p => p.1 == p.2).length = l2.length) ↔
      (l2.length ≤ l1.length ∧ l1.take l2.length = l2) := by
  induction l2 with
  | nil => intro l1; simp
  | cons b bs ih =>
    intro l1
    cases l1 with
    | nil => simp
    | cons a as =>
      by_cases hab : a = b
      · subst hab
        simp only [List.zip_cons_cons, List.takeWhile_cons, beq_self_eq_true, if_true,
          List.length_cons, List.take_succ_cons, List.cons.injEq, true_and,
          Nat.add_le_add_iff_right]
        rw [← ih as]
        omega
      · have hne : (a == b) = false := beq_eq_false_iff_ne.mpr hab
        simp [List.zip_cons_cons, List.takeWhile_cons, hne, List.take_succ_cons, hab]

/-- C3 as written is false on the code: with `other` empty and `self`
non-empty the claimed right-hand side holds but `starts_with` returns
false (the source additionally requires `other` to be non-empty). -/
theorem C3_claim_counterexample :
    ¬ ((Buffer.fromList ['a']).starts_with (Buffer.fromList []) = true ↔
      ((Buffer.fromList []).data.length < (Buffer.fromList ['a']).data.length ∧
        (Buffer.fromList ['a']).data.take (Buffer.fromList []).data.length
          = (Buffer.fromList []).data)) := by
  decide

/-- C3 amended: `a.starts_with b` is true iff `b` is non-empty, `a` is
strictly longer than `b`, and the first `b.len` code points of `a` are
exactly `b`. -/
theorem C3_starts_with_amended (a b : Buffer) :
    a.starts_with b = true ↔
      (b.data ≠ [] ∧ b.data.length < a.data.length ∧
        a.data.take b.data.length = b.data) := by
  unfold Buffer.starts_with
  dsimp only
  split
  · rename_i hcond
    obtain ⟨hne, hlen⟩ := hcond
    rw [beq_iff_eq, zip_takeWhile_length_eq]
    constructor
    · intro ⟨h1, h2⟩
      refine ⟨fun he => hne (by simp [he]), by omega, h2⟩
    · intro ⟨_, h1, h2⟩
      exact ⟨by omega, h2⟩
  · rename_i hcond
    push_neg at hcond
    constructor
    · intro hfalse
      exact absurd hfalse (by simp)
    · intro ⟨h1, h2, h3⟩
      have hb0 : b.data.length ≠ 0 := fun he => h1 (List.length_eq_zero.mp he)
      have := hcond hb0
      omega

/-- Witness for C3 amended at concrete buffers. -/
theorem C3_starts_with_amended_witness :
    (Buffer.fromList ['a', 'b']).starts_with (Buffer.fromList ['a']) = true ↔
      ((Buffer.fromList ['a']).data ≠ [] ∧
        (Buffer.fromList ['a']).data.length < (Buffer.fromList ['a', 'b']).data.length ∧
        (Buffer.fromList ['a', 'b']).data.take (Buffer.fromList ['a']).data.length
          = (Buffer.fromList ['a']).data) :=
  C3_starts_with_amended (Buffer.fromList ['a', 'b']) (Buffer.fromList ['a'])

/-! ## History prefix search (claims C4 and C10) -/

theorem scanDown_some (bufs : List Buffer) (nb : Buffer) :
    ∀ (pos : Nat) (b : Buffer), scanDown bufs nb pos = some b →
      ∃ i, i < pos ∧ bufs.get? i = some b ∧ b.starts_with nb = true ∧
        ∀ j bj, i < j → j < pos → bufs.get? j = some bj →
          bj.starts_with nb = false := by
  intro pos
  induction pos with
  | zero => intro b h; simp [scanDown] at h
  | succ i ih =>
    intro b h
    rw [scanDown] at h
    cases hg : bufs.get? i with
    | some tested =>
      rw [hg] at h
      dsimp only at h
      by_cases hsw : tested.starts_with nb = true
      · rw [if_pos hsw] at h
        obtain rfl : tested = b := by injection h
        refine ⟨i, Nat.lt_succ_self i, hg, hsw, ?_⟩
        intro j bj hij hji _
        omega
      · rw [if_neg hsw] at h
        obtain ⟨i0, hi0, hget, hsw0, hnone⟩ := ih b h
        refine ⟨i0, Nat.lt_succ_of_lt hi0, hget, hsw0, ?_⟩
        intro j bj hij hji hgj
        rcases Nat.lt_succ_iff_lt_or_eq.mp hji with hj | rfl
        · exact hnone j bj hij hj hgj
        · rw [hg] at hgj
          obtain rfl : tested = bj := by injection hgj
          exact Bool.eq_false_iff.mpr hsw
    | none =>
      rw [hg] at h
      dsimp only at h
      obtain ⟨i0, hi0, hget, hsw0, hnone⟩ := ih b h
      refine ⟨i0, Nat.lt_succ_of_lt hi0, hget, hsw0, ?_⟩
      intro j bj hij hji hgj
      rcases Nat.lt_succ_iff_lt_or_eq.mp hji with hj | rfl
      · exact hnone j bj hij hj hgj
      · rw [hg] at hgj
        exact absurd hgj (by simp)

/-- C4. `get_newest_match` scans `[0, k)` from high to low, where `k`
falls back to the history length: a returned entry sits at some index
`i < k`, starts with the given buffer, and no later index below `k`
does. -/
theorem C4_get_newest_match (h : History) (k : Option Nat) (p b : Buffer)
    (hf : h.get_newest_match k p = some b) :
    ∃ i, i < k.getD h.buffers.length ∧ h.buffers.get? i = some b ∧
      b.starts_with p = true ∧
      ∀ j bj, i < j → j < k.getD h.buffers.length → h.buffers.get? j = some bj →
        bj.starts_with p = false :=
  scanDown_some h.buffers p (k.getD h.buffers.length) b hf

/-- Witness for C4 on a concrete two-entry history. -/
theorem C4_get_newest_match_witness :
    ∃ i, i < (none : Option Nat).getD
        (History.mk [Buffer.fromList ['a', 'b'], Buffer.fromList ['c']] none 1000 false []).buffers.length ∧
      (History.mk [Buffer.fromList ['a', 'b'], Buffer.fromList ['c']] none 1000 false []).buffers.get? i
        = some (Buffer.fromList ['a', 'b']) ∧
      (Buffer.fromList ['a', 'b']).starts_with (Buffer.fromList ['a']) = true ∧
      ∀ j bj, i < j →
        j < (none : Option Nat).getD
          (History.mk [Buffer.fromList ['a', 'b'], Buffer.fromList ['c']] none 1000 false []).buffers.length →
        (History.mk [Buffer.fromList ['a', 'b'], Buffer.fromList ['c']] none 1000 false []).buffers.get? j
          = some bj →
        bj.starts_with (Buffer.fromList ['a']) = false :=
  C4_get_newest_match
    (History.mk [Buffer.fromList ['a', 'b'], Buffer.fromList ['c']] none 1000 false [])
    none (Buffer.fromList ['a']) (Buffer.fromList ['a', 'b']) (by decide)

theorem starts_with_empty (t b : Buffer) (hb : b.data = []) :
    t.starts_with b = false := by
  unfold Buffer.starts_with
  rw [if_neg]
  intro ⟨h1, _⟩
  exact h1 (by simp [hb])

theorem scanDown_empty (bufs : List Buffer) (b : Buffer) (hb : b.data = []) :
    ∀ pos : Nat, scanDown bufs b pos = none := by
  intro pos
  induction pos with
  | zero => rfl
  | succ i ih =>
    rw [scanDown]
    cases hg : bufs.get? i with
    | some tested =>
      dsimp only
      rw [starts_with_empty tested b hb, if_neg (by simp)]
      exact ih
    | none => exact ih

/-- C10. An empty line never has an autosuggestion: `get_newest_match`
returns `None` for an empty search buffer (since `starts_with` demands a
non-empty argument), and hence `current_autosuggestion` is `None`
whenever the current buffer is empty. -/
theorem C10_empty_no_autosuggestion :
    (∀ (h : History) (loc : Option Nat) (b : Buffer), b.data = [] →
      h.get_newest_match loc b = none) ∧
    (∀ ed : Editor, ed.curBuf.data = [] → ed.current_autosuggestion = none) := by
  have h1 : ∀ (h : History) (loc : Option Nat) (b : Buffer), b.data = [] →
      h.get_newest_match loc b = none := by
    intro h loc b hb
    exact scanDown_empty h.buffers b hb _
  refine ⟨h1, ?_⟩
  intro ed hb
  unfold Editor.current_autosuggestion
  split
  · exact h1 _ _ _ hb
  · rfl

/-- Witness for C10 at a concrete history and editor. -/
theorem C10_empty_no_autosuggestion_witness :
    (History.mk [Buffer.fromList ['a']] none 1000 false []).get_newest_match
      none Buffer.new = none ∧
    Editor.initial.current_autosuggestion = none :=
  ⟨C10_empty_no_autosuggestion.1 _ none Buffer.new rfl,
   C10_empty_no_autosuggestion.2 Editor.initial rfl⟩

/-! ## History push (claim C2) -/

theorem evictFront_length_le : ∀ (l : List Buffer) (m : Nat),
    (evictFront l m).length ≤ m := by
  intro l
  induction l with
  | nil => intro m; simp [evictFront]
  | cons x xs ih =>
    intro m
    rw [evictFront]
    split
    · exact ih m
    · omega

theorem evictFront_eq_drop : ∀ (l : List Buffer) (m : Nat),
    evictFront l m = l.drop (l.length - m) := by
  intro l
  induction l with
  | nil => intro m; simp [evictFront]
  | cons x xs ih =>
    intro m
    rw [evictFront]
    split
    · rename_i hlen
      simp only [List.length_cons] at hlen
      have hx : (x :: xs).length - m = (xs.length - m) + 1 := by
        simp only [List.length_cons]
        omega
      rw [ih m, hx, List.drop_succ_cons]
    · rename_i hlen
      simp only [List.length_cons] at hlen
      have hx : (x :: xs).length - m = 0 := by
        simp only [List.length_cons]
        omega
      rw [hx, List.drop_zero]

/-- C2 as written is false on the code: the in-memory length bound can be
violated by a deduplicated push when the deque already exceeds
`max_size` (reachable via `set_max_size` or `load_history`): here a
two-entry history with `max_size = 1` is left at length 2. -/
theorem C2_claim_counterexample :
    ¬ ((History.mk [Buffer.fromList ['a'], Buffer.fromList ['a']] none 1 false []).push
          (Buffer.fromList ['a'])).len ≤
        (History.mk [Buffer.fromList ['a'], Buffer.fromList ['a']] none 1 false []).max_size := by
  decide

/-- C2 amended: a deduplicated push (`append_duplicate_entries` false and
the back equal to the pushed buffer in string form) leaves the in-memory
deque unchanged while still enqueuing the entry for the disk log when a
file path is set; any other push appends at the back, evicts from the
front, and leaves `len ≤ max_size`; hence `len` never exceeds
`max(previous len, max_size)` — the claimed unconditional `len ≤
max_size` holds for every non-deduplicated push and is preserved (but
not established) by deduplicated ones. -/
theorem C2_history_push_amended (h : History) (b : Buffer) :
    (h.dedups b → (h.push b).buffers = h.buffers) ∧
    (¬ h.dedups b →
      (h.push b).buffers = (h.buffers ++ [b]).drop (h.buffers.length + 1 - h.max_size) ∧
      (h.push b).len ≤ h.max_size ∧
      (0 < h.max_size → (h.push b).buffers.getLast? = some b)) ∧
    (h.push b).len ≤ max h.len h.max_size ∧
    (∀ nm, h.file_name = some nm →
      (h.push b).pending_writes = h.pending_writes ++ [(b, nm)]) := by
  have henq : (h.push b).buffers =
      (if h.dedups b then h.buffers
       else evictFront (h.buffers ++ [b]) h.max_size) ∧
      (∀ nm, h.file_name = some nm →
        (h.push b).pending_writes = h.pending_writes ++ [(b, nm)]) := by
    unfold History.push History.dedups
    cases hfn : h.file_name <;>
      · dsimp only
        constructor
        · split <;> simp_all
        · intro nm hnm
          split <;> simp_all
  obtain ⟨hbufs, hpend⟩ := henq
  by_cases hd : h.dedups b
  · rw [if_pos hd] at hbufs
    refine ⟨fun _ => hbufs, fun hc => absurd hd hc, ?_, hpend⟩
    rw [History.len, hbufs]
    exact le_max_left _ _
  · rw [if_neg hd] at hbufs
    have hlen : (h.push b).len ≤ h.max_size := by
      rw [History.len, hbufs]
      exact evictFront_length_le _ _
    refine ⟨fun hc => absurd hc hd, fun _ => ⟨?_, hlen, ?_⟩,
      le_trans hlen (le_max_right _ _), hpend⟩
    · rw [hbufs, evictFront_eq_drop]
      congr 1
      simp
    · intro hm
      rw [hbufs, evictFront_eq_drop]
      have hle : (h.buffers ++ [b]).length - h.max_size ≤ h.buffers.length := by
        simp only [List.length_append, List.length_singleton]
        omega
      rw [List.drop_append_eq_append_drop]
      have : (h.buffers ++ [b]).length - h.max_size - h.buffers.length = 0 := by
        simp only [List.length_append, List.length_singleton]
        omega
      rw [this, List.drop_zero]
      exact List.getLast?_concat _

/-- Witness for C2 amended: a deduplicated push (in-memory unchanged, disk
write still enqueued) and a non-deduplicated push obeying the bound. -/
theorem C2_history_push_amended_witness :
    ((History.mk [Buffer.fromList ['a']] (some "hist") 2 false []).push
        (Buffer.fromList ['a'])).buffers
      = (History.mk [Buffer.fromList ['a']] (some "hist") 2 false []).buffers ∧
    ((History.mk [Buffer.fromList ['a']] (some "hist") 2 false []).push
        (Buffer.fromList ['a'])).pending_writes
      = (History.mk [Buffer.fromList ['a']] (some "hist") 2 false []).pending_writes
        ++ [(Buffer.fromList ['a'], "hist")] ∧
    ((History.mk [Buffer.fromList ['a']] none 1 false []).push
        (Buffer.fromList ['b'])).len
      ≤ (History.mk [Buffer.fromList ['a']] none 1 false []).max_size :=
  ⟨(C2_history_push_amended _ _).1 (by decide),
   (C2_history_push_amended _ _).2.2.2 "hist" rfl,
   ((C2_history_push_amended _ _).2.1 (by decide)).2.1⟩

/-! ## Cursor bounds (claim C5) -/

theorem display_bounds (ed : Editor) : cursorBounds ed.display := by
  have hbuf : (ed.display).curBuf = ed.curBuf := rfl
  have hno : (ed.display).no_eol = ed.no_eol := rfl
  have hcur : (ed.display).cursor =
      (let n := ed.curBuf.num_chars
       let c := if n < ed.cursor then n else ed.cursor
       if ed.no_eol ∧ 1 ≤ c ∧ c = n then c - 1 else c) := rfl
  unfold cursorBounds
  rw [hbuf, hno, hcur]
  dsimp only
  refine ⟨Nat.zero_le _, ?_, ?_⟩
  · split <;> split <;> omega
  · intro hno2
    simp only [hno2, true_and]
    split <;> split <;> omega

/-- C5. Cursor bounds: after every public editor operation the cursor
satisfies `0 ≤ cursor ≤ len` of the current buffer, and with `no_eol` set
also `cursor ≤ max 0 (len - 1)` (each operation ends in the `_display`
clamp). -/
theorem C5_cursor_bounds (ed : Editor) (op : EditorOp) :
    cursorBounds (applyEditorOp ed op) := by
  cases op <;>
    first
    | exact display_bounds _
    | · simp only [applyEditorOp, Editor.move_cursor_left, Editor.move_cursor_right,
          Editor.move_cursor_to, Editor.move_cursor_to_start_of_line,
          Editor.move_cursor_to_end_of_line, Editor.move_up, Editor.move_down,
          Editor.move_to_start_of_history, Editor.move_to_end_of_history,
          Editor.insert_chars_after_cursor, Editor.insert_after_cursor,
          Editor.insert_str_after_cursor, Editor.delete_before_cursor,
          Editor.delete_after_cursor, Editor.delete_all_before_cursor,
          Editor.delete_all_after_cursor, Editor.delete_until,
          Editor.delete_until_inclusive, Editor.undo, Editor.redo, Editor.revert,
          Editor.handle_newline, Editor.accept_autosuggestion]
        repeat' split
        all_goals exact display_bounds _

/-- Witness for C5 (closed instance; the invariant's inner implication is
discharged at a concrete editor and operation). -/
theorem C5_cursor_bounds_witness :
    cursorBounds (applyEditorOp Editor.initial (EditorOp.insertChars ['h', 'i'])) :=
  C5_cursor_bounds Editor.initial (EditorOp.insertChars ['h', 'i'])

/-! ## Dispatcher error semantics (claim C6) -/

/-- C6 as written is false on the code: Ctrl-C does return the
interrupted error, but when the character before the cursor is a
backslash `handle_newline` inserts a literal newline instead of emitting
CRLF, so "after emitting CRLF" fails. -/
theorem C6_claim_counterexample :
    (handle_key (fun e _ => e) (fun e => e) backslashEditor (VKey.ctrl 'c')).err
      = some LineError.interrupted ∧
    (handle_key (fun e _ => e) (fun e => e) backslashEditor (VKey.ctrl 'c')).crlf
      = false := by
  constructor <;> rfl

theorem char_before_of_empty (b : Buffer) (hb : b.is_empty = true) (c : Nat) :
    b.char_before c = none := by
  have hd : b.data = [] := by
    unfold Buffer.is_empty at hb
    exact List.isEmpty_iff.mp hb
  unfold Buffer.char_before
  split
  · rfl
  · rw [hd]
    exact List.get?_eq_none.mpr (by simp)

/-- C6 amended: for every editor state and every `handle_key_core` /
`complete` (both total, as their only failures in the source are terminal
I/O), the dispatcher returns the interrupted error exactly on Ctrl-C and
the eof error exactly on Ctrl-D with an empty current buffer; Ctrl-C
emits CRLF unless the character before the cursor is a backslash (then a
literal newline is inserted instead), and Ctrl-D on an empty buffer
always emits CRLF. -/
theorem C6_dispatcher_amended (core : Editor → VKey → Editor)
    (complete : Editor → Editor) (ed : Editor) (key : VKey) :
    ((handle_key core complete ed key).err = some LineError.interrupted ↔
      key = VKey.ctrl 'c') ∧
    ((handle_key core complete ed key).err = some LineError.eof ↔
      (key = VKey.ctrl 'd' ∧ ed.curBuf.is_empty = true)) ∧
    (key = VKey.ctrl 'c' →
      ((handle_key core complete ed key).crlf = true ↔
        ed.curBuf.char_before ed.cursor ≠ some '\\')) ∧
    (key = VKey.ctrl 'd' → ed.curBuf.is_empty = true →
      (handle_key core complete ed key).crlf = true) := by
  by_cases hc : key = VKey.ctrl 'c'
  · subst hc
    have h1 : handle_key core complete ed (VKey.ctrl 'c') =
        ⟨(ed.handle_newline).1, some LineError.interrupted, false,
          (ed.handle_newline).2.2⟩ := by
      unfold handle_key
      dsimp only
      rw [if_neg (show ¬ VKey.ctrl 'c' = VKey.ctrl 'h' by decide), if_pos rfl]
    refine ⟨by rw [h1]; simp, by rw [h1]; simp, ?_, fun h => absurd h (by decide)⟩
    intro _
    rw [h1]
    unfold Editor.handle_newline
    split
    · rename_i hbs
      simp [hbs]
    · rename_i hbs
      simp [hbs]
  · by_cases hd : key = VKey.ctrl 'd' ∧ ed.curBuf.is_empty = true
    · obtain ⟨hk, hemp⟩ := hd
      subst hk
      have hout : handle_key core complete ed (VKey.ctrl 'd') =
          ⟨(ed.handle_newline).1, some LineError.eof, false,
            (ed.handle_newline).2.2⟩ := by
        unfold handle_key
        dsimp only
        rw [if_neg (show ¬ VKey.ctrl 'd' = VKey.ctrl 'h' by decide),
          if_neg (show ¬ VKey.ctrl 'd' = VKey.ctrl 'c' by decide),
          if_pos ⟨rfl, hemp⟩]
      refine ⟨by rw [hout]; simp, by rw [hout]; simp [hemp],
        fun h => absurd h hc, ?_⟩
      intro _ _
      rw [hout]
      unfold Editor.handle_newline
      rw [if_neg (by rw [char_before_of_empty ed.curBuf hemp]; simp)]
    · have hout : (handle_key core complete ed key).err = none := by
        by_cases hh : key = VKey.ctrl 'h'
        · subst hh
          rfl
        · unfold handle_key
          dsimp only
          rw [if_neg hh, if_neg hc, if_neg hd]
          split
          · rfl
          · split
            · rfl
            · split
              · rfl
              · split
                · rfl
                · rfl
      refine ⟨?_, ?_, fun h => absurd h hc, fun h1 h2 => absurd ⟨h1, h2⟩ hd⟩
      · rw [hout]
        constructor
        · intro h
          exact Option.noConfusion h
        · intro hk
          exact absurd hk hc
      · rw [hout]
        constructor
        · intro h
          exact Option.noConfusion h
        · intro hk
          exact absurd hk hd

/-- Witness for C6 amended at a concrete editor and key. -/
theorem C6_dispatcher_amended_witness :
    ((handle_key (fun e _ => e) (fun e => e) Editor.initial (VKey.ctrl 'd')).err
        = some LineError.eof ↔
      (VKey.ctrl 'd' = VKey.ctrl 'd' ∧ Editor.initial.curBuf.is_empty = true)) ∧
    (handle_key (fun e _ => e) (fun e => e) Editor.initial (VKey.ctrl 'd')).crlf = true :=
  ⟨(C6_dispatcher_amended (fun e _ => e) (fun e => e) Editor.initial (VKey.ctrl 'd')).2.1,
   (C6_dispatcher_amended (fun e _ => e) (fun e => e) Editor.initial
      (VKey.ctrl 'd')).2.2.2 rfl rfl⟩

/-! ## Vi count accumulation (claim C8) -/

theorem satAdd_satMul_ten (a d : Nat) :
    satAdd (satMul a 10) d = min (a * 10 + d) U32MAX := by
  unfold satAdd satMul U32MAX
  omega

/-- C8. Vi normal-mode digits: a `0` pressed with `count == 0` runs the
move-to-start-of-line motion (cursor lands at 0, count stays 0); any
other digit key accumulates `count * 10 + digit` with saturating `u32`
arithmetic, and the count never exceeds `u32::MAX`. -/
theorem C8_vi_count (fuel : Nat) (s : ViS) (c : Char)
    (hm : s.mode_stack = []) (hd : c.isDigit = true) :
    ((c = '0' ∧ s.count = 0) →
      ((viKey (fuel + 1) s (VKey.char c)).ed.cursor = 0 ∧
        (viKey (fuel + 1) s (VKey.char c)).count = 0)) ∧
    (¬(c = '0' ∧ s.count = 0) →
      (viKey (fuel + 1) s (VKey.char c)).count
        = min (s.count * 10 + (c.toNat - 48)) U32MAX) ∧
    (viKey (fuel + 1) s (VKey.char c)).count ≤ U32MAX := by
  have hb : '0' ≤ c ∧ c ≤ '9' := by
    simpa [Char.isDigit, Bool.and_eq_true, decide_eq_true_eq] using hd
  have hmode : s.mode = Mode.Normal := by simp [ViS.mode, hm]
  have hstep : viKey (fuel + 1) s (VKey.char c) =
      viNormal (fun s2 k2 => viKey fuel s2 k2) s (VKey.char c) := by
    conv_lhs => rw [viKey]
    rw [hmode]
  have hni : ¬ c = 'i' := fun h => by subst h; exact absurd hb.2 (by decide)
  have hna : ¬ c = 'a' := fun h => by subst h; exact absurd hb.2 (by decide)
  have hnA : ¬ c = 'A' := fun h => by subst h; exact absurd hb.2 (by decide)
  have hnI : ¬ c = 'I' := fun h => by subst h; exact absurd hb.2 (by decide)
  have hns : ¬ c = 's' := fun h => by subst h; exact absurd hb.2 (by decide)
  have hnD : ¬ c = 'D' := fun h => by subst h; exact absurd hb.2 (by decide)
  have hnC : ¬ c = 'C' := fun h => by subst h; exact absurd hb.2 (by decide)
  have hndot : ¬ c = '.' := fun h => by subst h; exact absurd hb.1 (by decide)
  have hnh : ¬ c = 'h' := fun h => by subst h; exact absurd hb.2 (by decide)
  have hnl : ¬ (c = 'l' ∨ c = ' ') := fun h => h.elim
    (fun h1 => by subst h1; exact absurd hb.2 (by decide))
    (fun h1 => by subst h1; exact absurd hb.1 (by decide))
  have hnk : ¬ c = 'k' := fun h => by subst h; exact absurd hb.2 (by decide)
  have hnj : ¬ c = 'j' := fun h => by subst h; exact absurd hb.2 (by decide)
  have hchain : viNormal (fun s2 k2 => viKey fuel s2 k2) s (VKey.char c) =
      (if c = '0' ∧ s.count = 0 then
        ViS.pop_mode_after_movement
          { s with ed := s.ed.move_cursor_to_start_of_line } MoveType.Exclusive
      else { s with count := satAdd (satMul s.count 10) (c.toNat - 48) }) := by
    rw [viNormal]
    rw [if_neg hni, if_neg hna, if_neg hnA, if_neg hnI, if_neg hns, if_neg hnD,
      if_neg hnC, if_neg hndot, if_neg hnh, if_neg hnl, if_neg hnk, if_neg hnj]
    by_cases hzero : c = '0' ∧ s.count = 0
    · rw [if_pos hzero, if_pos hzero]
    · rw [if_neg hzero, if_neg hzero, if_pos hb]
  rw [hstep, hchain]
  by_cases hzero : c = '0' ∧ s.count = 0
  · rw [if_pos hzero]
    have hcur :
        (ViS.pop_mode_after_movement
          { s with ed := s.ed.move_cursor_to_start_of_line }
          MoveType.Exclusive).ed.cursor = 0 := by
      unfold ViS.pop_mode_after_movement
      rw [hm]
      dsimp only [List.headD, List.tail, ViS.mode]
      simp [Editor.move_cursor_to_start_of_line, Editor.display]
    have hcnt :
        (ViS.pop_mode_after_movement
          { s with ed := s.ed.move_cursor_to_start_of_line }
          MoveType.Exclusive).count = 0 := by
      unfold ViS.pop_mode_after_movement
      rw [hm]
      dsimp only [List.headD, List.tail, ViS.mode]
      simp
    refine ⟨fun _ => ⟨hcur, hcnt⟩, fun hcon => absurd hzero hcon, ?_⟩
    rw [hcnt]
    unfold U32MAX
    omega
  · rw [if_neg hzero]
    refine ⟨fun hcon => absurd hcon hzero, fun _ => ?_, ?_⟩
    · show satAdd (satMul s.count 10) (c.toNat - 48) = _
      exact satAdd_satMul_ten _ _
    · show satAdd (satMul s.count 10) (c.toNat - 48) ≤ U32MAX
      unfold satAdd U32MAX
      omega

/-- Witness for C8: digit `7` typed with a pending count of 3 in normal
mode yields `37`, never overflowing. -/
theorem C8_vi_count_witness :
    let s0 : ViS := { Vi.new Editor.initial with mode_stack := [], count := 3 }
    (¬('7' = '0' ∧ s0.count = 0) →
      (viKey 1 s0 (VKey.char '7')).count
        = min (s0.count * 10 + ('7'.toNat - 48)) U32MAX) ∧
    (viKey 1 s0 (VKey.char '7')).count ≤ U32MAX :=
  (C8_vi_count 0 { Vi.new Editor.initial with mode_stack := [], count := 3 }
    '7' rfl (by decide)).2

/-! ## Vi repeat scenario (claim C9) -/

/-- C9. Starting from an empty editor in the Vi keymap, the key sequence
`i f Esc 3 .` leaves the buffer containing exactly `"iifififf"` (typing
inserts `if`, `Esc` records it as the last insert command, and `3.`
replays the insertion three times, matching the source's
`vi_dot_command_repeat` test). -/
theorem C9_vi_repeat_scenario :
    repeatScenario.ed.curBuf.data = "iifififf".toList := by
  decide

end Liner
